import Mathlib

/-!
Verification of the MCP (Model Context Protocol) tool subsystem of the
obsidian-copilot repository: a shallow embedding of

* the canonical tool-id encoding and decoding
  (mcpClient.ts getAllMCPTools, MCPTools.ts executeMCPTool),
* the MCPClientManager connection registry and catalog
  (connectToServer, disconnectFromServer, loadServerTools,
  loadServerResources, isServerConnected, getAllMCPTools),
* the MCPToolsManager policy layer (getEnabledMCPTools, executeMCPTool),
* the streaming tool-call accumulator and continuation step of
  CopilotPlusChainRunner.streamMultimodalResponse, and
* the sequential tool fan-out of executeMCPTools,

together with theorems settling the specification claims about them.

Strings are modelled as List Char.  A JavaScript string field that can be
undefined is modelled as List Char with [] standing for both undefined and
the empty string: the source only ever tests such fields for truthiness
(if (s)), and both undefined and "" are falsy, so the identification is
faithful to every test the source performs.
-/

/-- Association-list lookup; models Map.get on a JavaScript Map whose
keys are unique. -/
def alookup {κ α : Type} [DecidableEq κ] (k : κ) : List (κ × α) → Option α
  | [] => none
  | p :: rest => if p.1 = k then some p.2 else alookup k rest

/-- Association-list update: replaces the value at an existing key in
place (a JavaScript Map keeps the original insertion position) and
appends a fresh key at the end, as Map.set does. -/
def aset {κ α : Type} [DecidableEq κ] (k : κ) (v : α) : List (κ × α) → List (κ × α)
  | [] => [(k, v)]
  | p :: rest => if p.1 = k then (k, v) :: rest else p :: aset k v rest

/-- Association-list removal of a key; models Map.delete (keys are
unique on a Map, so removing every pair with the key is the same as
removing the one pair that carries it). -/
def aeraseKey {κ α : Type} [DecidableEq κ] (k : κ) (m : List (κ × α)) : List (κ × α) :=
  m.filter (fun p => decide (p.1 ≠ k))

/-- Key-set removal for maps whose values are irrelevant to the claims
(the clients and transports maps, kept as their key lists). -/
def skDelete (k : List Char) (m : List (List Char)) : List (List Char) :=
  m.filter (fun k2 => decide (k2 ≠ k))

/-- Key-set insertion preserving first-insertion order, as Map.set does
for a key that may already be present. -/
def skInsert (k : List Char) (m : List (List Char)) : List (List Char) :=
  if k ∈ m then m else m ++ [k]

/-- The canonical tool-id marker written by getAllMCPTools and required
by executeMCPTool's parsing regex: the literal text before the server
name in an id of shape at-mcp-server-tool. -/
def mcpTag : List Char := ['@', 'm', 'c', 'p', '-']

/-- Canonical tool-id encoding, from mcpClient.ts getAllMCPTools
(line 220): the template literal joining the marker, the server name, a
dash, and the provider-local tool name. -/
def encodeMCPToolId (serverName localName : List Char) : List Char :=
  mcpTag ++ serverName ++ '-' :: localName

/-- The JavaScript LineTerminator characters: line feed, carriage
return, line separator and paragraph separator.  The dot of a regex
without the s flag matches any character except these. -/
def isLineTerminator (c : Char) : Bool :=
  c == '\n' || c == '\r' || c == Char.ofNat 0x2028 || c == Char.ofNat 0x2029

/-- Helper for the lazy-regex split over a remainder already known to
be free of line terminators (decodeMCPToolId checks that first):
having committed the non-empty list acc to the first capture group,
scan the rest of the input for the first dash that still leaves a
non-empty remainder for the second group.  This is exactly how the
backtracking engine satisfies (.+?)-(.+)$ on such input: the first
group grows one character at a time, so it ends at the first dash
whose suffix is non-empty. -/
def splitFirstSepAux (acc : List Char) : List Char → Option (List Char × List Char)
  | [] => none
  | c :: rest =>
    if c = '-' ∧ rest ≠ [] then some (acc, rest)
    else splitFirstSepAux (acc ++ [c]) rest

/-- Split at the first dash such that both sides are non-empty, the
semantics of the capture groups in the source regex on a remainder
free of line terminators. -/
def splitFirstSep : List Char → Option (List Char × List Char)
  | [] => none
  | c :: rest => splitFirstSepAux [c] rest

/-- Canonical tool-id decoding, from MCPTools.ts executeMCPTool
(line 86): toolName.match of an anchored regex consisting of the
literal marker, a lazy non-empty first group, a dash, and a non-empty
second group.  The regex has no s flag, so neither group's dot can
match a line terminator; since an anchored match covers the whole
remainder with the two groups and the literal dash, a match exists
only when the remainder after the marker contains no line terminator
at all, and on such a remainder the lazy engine yields the
first-occurrence split.  Returns the (serverName, localName) pair on a
match. -/
def decodeMCPToolId (toolName : List Char) : Option (List Char × List Char) :=
  match toolName with
  | '@' :: 'm' :: 'c' :: 'p' :: '-' :: rest =>
    if rest.all (fun c => !isLineTerminator c) then splitFirstSep rest else none
  | _ => none

/-- Structured argument values, the image of JSON.parse on tool-call
argument text and the payload type of tool results.  Floating-point
numbers do not occur in any claim and are left out (an argument text
containing one is outside this model's domain). -/
inductive Json where
  | null
  | bool (b : Bool)
  | num (n : Int)
  | str (s : List Char)
  | arr (elems : List Json)
  | obj (fields : List (List Char × Json))

/-- Opening-brace character, written by code point to keep brace
characters out of string literals. -/
def lbraceChar : Char := Char.ofNat 123

/-- Closing-brace character. -/
def rbraceChar : Char := Char.ofNat 125

/-- Whitespace recognised by the JSON grammar (also the core of the
set trimmed by String.prototype.trim, which the source only ever uses
to test whether a name is blank). -/
def isJsonWs (c : Char) : Bool :=
  c == ' ' || c == '\n' || c == '\t' || c == '\r'

/-- String.prototype.trim: drop whitespace from both ends. -/
def jsTrim (s : List Char) : List Char :=
  ((s.dropWhile isJsonWs).reverse.dropWhile isJsonWs).reverse

/-- Contents of a JSON string literal up to its closing quote, with no
escape sequences (none occur in any concrete input of the claims). -/
def parseJsonStringRest : List Char → Option (List Char × List Char)
  | [] => none
  | c :: rest =>
    if c == '\"' then some ([], rest)
    else if c == '\\' then none
    else
      match parseJsonStringRest rest with
      | some (s, rem) => some (c :: s, rem)
      | none => none

/-- Value of a digit character. -/
def digitVal (c : Char) : Nat := c.toNat - '0'.toNat

/-- Decimal digits to a natural number. -/
def digitsToNat (ds : List Char) : Nat :=
  ds.foldl (fun n c => n * 10 + digitVal c) 0

mutual

/-- Modelled from the spec: the external runtime's JSON.parse, which
the source applies to the accumulated argument text of each tool call
(part_002 line 806).  Recursive-descent over the JSON grammar with a
fuel argument bounding recursion depth; restricted to null, booleans,
integers, escape-free strings, arrays, and objects. -/
def parseJsonValue : Nat → List Char → Option (Json × List Char)
  | 0, _ => none
  | fuel + 1, s =>
    match s.dropWhile isJsonWs with
    | [] => none
    | c :: rest =>
      if c == lbraceChar then parseJsonFields fuel [] rest
      else if c == '[' then parseJsonElems fuel [] rest
      else if c == '\"' then
        match parseJsonStringRest rest with
        | some (str, rem) => some (Json.str str, rem)
        | none => none
      else if c == 't' then
        if rest.take 3 = ['r', 'u', 'e'] then some (Json.bool true, rest.drop 3) else none
      else if c == 'f' then
        if rest.take 4 = ['a', 'l', 's', 'e'] then some (Json.bool false, rest.drop 4) else none
      else if c == 'n' then
        if rest.take 3 = ['u', 'l', 'l'] then some (Json.null, rest.drop 3) else none
      else if c == '-' then
        match rest.takeWhile Char.isDigit with
        | [] => none
        | ds => some (Json.num (-(digitsToNat ds : Int)), rest.dropWhile Char.isDigit)
      else if c.isDigit then
        some (Json.num (digitsToNat ((c :: rest).takeWhile Char.isDigit)),
              (c :: rest).dropWhile Char.isDigit)
      else none

/-- Fields of a JSON object after the opening brace (or after a
comma, in which case the accumulator is non-empty and a closing brace
without a preceding pair is rejected). -/
def parseJsonFields : Nat → List (List Char × Json) → List Char →
    Option (Json × List Char)
  | 0, _, _ => none
  | fuel + 1, acc, s =>
    match s.dropWhile isJsonWs with
    | [] => none
    | c :: rest =>
      if c == rbraceChar then
        if acc.isEmpty then some (Json.obj [], rest) else none
      else if c == '\"' then
        match parseJsonStringRest rest with
        | some (key, rem) =>
          match rem.dropWhile isJsonWs with
          | ':' :: rem2 =>
            match parseJsonValue fuel rem2 with
            | some (v, rem3) =>
              match rem3.dropWhile isJsonWs with
              | ',' :: rem4 => parseJsonFields fuel (acc ++ [(key, v)]) rem4
              | c2 :: rem4 =>
                if c2 == rbraceChar then some (Json.obj (acc ++ [(key, v)]), rem4) else none
              | [] => none
            | none => none
          | _ => none
        | none => none
      else none

/-- Elements of a JSON array after the opening bracket. -/
def parseJsonElems : Nat → List Json → List Char → Option (Json × List Char)
  | 0, _, _ => none
  | fuel + 1, acc, s =>
    match s.dropWhile isJsonWs with
    | [] => none
    | c :: rest =>
      if c == ']' then
        if acc.isEmpty then some (Json.arr [], rest) else none
      else
        match parseJsonValue fuel (c :: rest) with
        | some (v, rem) =>
          match rem.dropWhile isJsonWs with
          | ',' :: rem2 => parseJsonElems fuel (acc ++ [v]) rem2
          | ']' :: rem2 => some (Json.arr (acc ++ [v]), rem2)
          | _ => none
        | none => none

end

/-- JSON.parse of a complete document: one value followed only by
whitespace; anything else is a parse failure (the source catches the
exception and drops the call). -/
def parseJson (s : List Char) : Option Json :=
  match parseJsonValue (s.length + 1) s with
  | some (j, rest) => if (rest.dropWhile isJsonWs).isEmpty then some j else none
  | none => none

/-- Server configuration, from the MCPServerConfig interface of
mcpClient.ts. -/
structure MCPServerConfig where
  name : List Char
  sseUrl : List Char
  apiKey : Option (List Char)
  enabled : Option Bool

/-- Catalog entry for one provider-local tool, from the MCPTool
interface of mcpClient.ts. -/
structure MCPTool where
  name : List Char
  description : List Char
  inputSchema : Json

/-- Catalog entry for one provider resource, from the MCPResource
interface of mcpClient.ts. -/
structure MCPResource where
  uri : List Char
  name : List Char
  description : Option (List Char)
  mimeType : Option (List Char)

/-- The five maps of MCPClientManager (mcpClient.ts lines 32-36).  The
clients and transports maps are kept as their key lists: no claim
depends on the session or transport objects themselves, only on which
server names hold a live handle. -/
structure MCPClientManagerState where
  clients : List (List Char)
  transports : List (List Char)
  servers : List (List Char × MCPServerConfig)
  tools : List (List Char × List MCPTool)
  resources : List (List Char × List MCPResource)

/-- MCPClientManager.isServerConnected (line 297): membership of the
server name in the clients map. -/
def isServerConnected (st : MCPClientManagerState) (serverName : List Char) : Bool :=
  decide (serverName ∈ st.clients)

/-- MCPClientManager.disconnectFromServer (lines 114-139).  The close
calls on the session and the transport are awaited external effects
whose success is a parameter here.  Note the placement of the deletes
in the source: each delete sits AFTER the await inside the same try
block, so a close that throws skips the corresponding delete; the
tools and resources deletes sit after both try blocks and always
run. -/
def disconnectFromServer (st : MCPClientManagerState) (serverName : List Char)
    (clientCloseOk transportCloseOk : Bool) : MCPClientManagerState :=
  let st1 :=
    if serverName ∈ st.clients then
      if clientCloseOk then { st with clients := skDelete serverName st.clients } else st
    else st
  let st2 :=
    if serverName ∈ st1.transports then
      if transportCloseOk then { st1 with transports := skDelete serverName st1.transports }
      else st1
    else st1
  { st2 with
    tools := aeraseKey serverName st2.tools,
    resources := aeraseKey serverName st2.resources }

/-- Outcome of a list-tools or list-resources request against a
connected session: a response carrying the expected array, a response
without it, an error recognised as method-not-found (code -32601 or a
message containing the text Method not found), or any other error. -/
inductive ListOutcome (α : Type) where
  | ok (items : List α)
  | okMissing
  | methodNotFound
  | otherError

/-- Tool record as reported by the provider, before the normalisation
performed by loadServerTools. -/
structure RawTool where
  name : List Char
  description : Option (List Char)
  inputSchema : Option Json

/-- Normalisation applied to each reported tool (mcpClient.ts lines
155-159): missing description becomes the empty string, missing schema
becomes the empty object. -/
def normalizeTool (t : RawTool) : MCPTool :=
  { name := t.name,
    description := t.description.getD [],
    inputSchema := t.inputSchema.getD (Json.obj []) }

/-- MCPClientManager.loadServerTools (lines 144-175): with no client
for the server the function throws and touches nothing; a response
with a tools array replaces the catalog entry; a response without one
leaves it; a method-not-found error records the empty list; any other
error is logged and leaves the previous entry untouched. -/
def loadServerTools (st : MCPClientManagerState) (serverName : List Char)
    (outcome : ListOutcome RawTool) : MCPClientManagerState :=
  if serverName ∈ st.clients then
    match outcome with
    | .ok rawTools => { st with tools := aset serverName (rawTools.map normalizeTool) st.tools }
    | .okMissing => st
    | .methodNotFound => { st with tools := aset serverName [] st.tools }
    | .otherError => st
  else st

/-- MCPClientManager.loadServerResources (lines 180-209), the same
shape as loadServerTools over the resources map (a response without a
resources array likewise leaves the previous entry). -/
def loadServerResources (st : MCPClientManagerState) (serverName : List Char)
    (outcome : ListOutcome MCPResource) : MCPClientManagerState :=
  if serverName ∈ st.clients then
    match outcome with
    | .ok rs => { st with resources := aset serverName rs st.resources }
    | .okMissing => st
    | .methodNotFound => { st with resources := aset serverName [] st.resources }
    | .otherError => st
  else st

/-- Errors surfaced by connectToServer. -/
inductive ConnectError where
  | serverNotFound (name : List Char)
  | connectionFailed

/-- MCPClientManager.connectToServer (lines 69-109).  The handshake
(client.connect) is an awaited external effect whose success is a
parameter.  The source registers the client and transport handles only
after the handshake resolves, then populates the catalog through
Promise.allSettled (whose rejections are absorbed), so a failed
handshake rethrows with every map untouched.  The returned pair is the
state after the call and the error surfaced to the caller, if any. -/
def connectToServer (st : MCPClientManagerState) (serverName : List Char)
    (handshakeOk : Bool) (toolsOutcome : ListOutcome RawTool)
    (resourcesOutcome : ListOutcome MCPResource) :
    MCPClientManagerState × Option ConnectError :=
  match alookup serverName st.servers with
  | none => (st, some (ConnectError.serverNotFound serverName))
  | some _ =>
    if handshakeOk then
      let st1 := { st with
        clients := skInsert serverName st.clients,
        transports := skInsert serverName st.transports }
      let st2 := loadServerTools st1 serverName toolsOutcome
      let st3 := loadServerResources st2 serverName resourcesOutcome
      (st3, none)
    else (st, some ConnectError.connectionFailed)

/-- Discovery entry produced by getAllMCPTools: canonical id, tagged
description, and owning server. -/
structure MCPToolEntry where
  name : List Char
  description : List Char
  serverName : List Char
deriving DecidableEq

/-- The entry built for one tool of one server (mcpClient.ts lines
219-223). -/
def mkToolEntry (serverName : List Char) (t : MCPTool) : MCPToolEntry :=
  { name := encodeMCPToolId serverName t.name,
    description := '[' :: (serverName ++ ']' :: ' ' :: t.description),
    serverName := serverName }

/-- MCPClientManager.getAllMCPTools (lines 214-228): walk the tools
map in insertion order and push one canonical-id entry per tool. -/
def getAllMCPTools (st : MCPClientManagerState) : List MCPToolEntry :=
  st.tools.foldl
    (fun allTools p => p.2.foldl (fun acc t => acc ++ [mkToolEntry p.1 t]) allTools) []

/-- MCPToolsManager.getEnabledMCPTools (MCPTools.ts lines 62-70): keep
the entries whose REBUILT id is not in the disabled set.  The rebuilt
id prepends the marker and server name to the entry's name field,
which is already the full canonical id. -/
def getEnabledMCPTools (disabledTools : List (List Char)) (st : MCPClientManagerState) :
    List MCPToolEntry :=
  (getAllMCPTools st).filter
    (fun tool => !(decide (encodeMCPToolId tool.serverName tool.name ∈ disabledTools)))

/-- Errors surfaced by MCPToolsManager.executeMCPTool. -/
inductive ExecError where
  | toolDisabled (toolName : List Char)
  | invalidFormat (toolName : List Char)
  | serverNotConnected (serverName : List Char)
  | callFailed (message : List Char)

/-- MCPToolsManager.executeMCPTool (MCPTools.ts lines 75-105): reject
a disabled id before anything else, then parse the id, then require a
live handle, then forward the call over the session.  The remote call
is an awaited external effect, passed here as a function returning the
provider's result or an error message. -/
def executeMCPTool (disabledTools : List (List Char)) (st : MCPClientManagerState)
    (callTool : List Char → List Char → Json → Except (List Char) Json)
    (toolName : List Char) (args : Json) : Except ExecError Json :=
  if toolName ∈ disabledTools then .error (.toolDisabled toolName)
  else
    match decodeMCPToolId toolName with
    | none => .error (.invalidFormat toolName)
    | some (serverName, actualToolName) =>
      if serverName ∈ st.clients then
        match callTool serverName actualToolName args with
        | .ok r => .ok r
        | .error e => .error (.callFailed e)
      else .error (.serverNotConnected serverName)

/-- One entry of chunk.tool_call_chunks: a partial tool-call fragment
tagged with its stream-position index.  name, args and id are string
fields that may be absent; [] stands for absent-or-empty (the source
only tests them for truthiness). -/
structure ToolCallChunk where
  index : Nat
  name : List Char
  args : List Char
  id : List Char
deriving DecidableEq

/-- One entry of chunk.tool_calls: a complete tool call as emitted by
providers that do not fragment.  args and input are the two places a
structured argument object may sit; absent fields are none. -/
structure StreamToolCall where
  id : List Char
  name : List Char
  args : Option Json
  input : Option Json

/-- One block of an array-valued chunk.content. -/
structure ContentItem where
  itemType : List Char
  text : List Char

/-- chunk.content: absent or falsy, a plain string, or an array of
typed blocks. -/
inductive ChunkContent where
  | absent
  | str (s : List Char)
  | blocks (items : List ContentItem)

/-- One event of the generation stream, carrying the three fields the
consumer loop reads.  tool_call_chunks is an Option of a list: the
source distinguishes the field being absent (the whole-call branch
requires !chunk.tool_call_chunks) from it being present but empty (a
truthy empty array takes neither branch). -/
structure StreamChunk where
  tool_call_chunks : Option (List ToolCallChunk)
  tool_calls : List StreamToolCall
  content : ChunkContent

/-- Accumulator record for one index (part_002 line 729): name and a
growing args text, plus an optional call id. -/
structure ToolCallAcc where
  name : List Char
  args : List Char
  id : List Char
deriving DecidableEq

/-- A resolved tool call as stored in toolCallsBuffer: id, name, and a
structured argument value. -/
structure BufferedToolCall where
  id : List Char
  name : List Char
  args : Json

/-- Fragment accumulation for one tool_call_chunks entry (part_002
lines 742-765): create the index's record on first sight (name and
args empty, id from the fragment), then overwrite the name if the
fragment carries a non-blank one, append the fragment's args text, and
overwrite the id if the fragment carries one. -/
def applyToolCallChunk (acc : List (Nat × ToolCallAcc)) (c : ToolCallChunk) :
    List (Nat × ToolCallAcc) :=
  let acc0 :=
    match alookup c.index acc with
    | some _ => acc
    | none => acc ++ [(c.index, { name := [], args := [], id := c.id })]
  match alookup c.index acc0 with
  | none => acc0
  | some a =>
    let a1 := if c.name ≠ [] then { a with name := c.name } else a
    let a2 := if c.args ≠ [] then { a1 with args := a1.args ++ c.args } else a1
    let a3 := if c.id ≠ [] then { a2 with id := c.id } else a2
    aset c.index a3 acc0

/-- State threaded through the streaming loop of
streamMultimodalResponse (part_002 lines 724-729): the buffer of
whole calls, the hasToolCalls flag, the per-index fragment
accumulator (a Map iterated in insertion order), and the narrative
text collected by the ThinkBlockStreamer. -/
structure StreamLoopState where
  toolCallsBuffer : List BufferedToolCall
  hasToolCalls : Bool
  toolCallAccumulator : List (Nat × ToolCallAcc)
  fullResponse : List Char

/-- The empty state at loop entry. -/
def initialStreamState : StreamLoopState :=
  { toolCallsBuffer := [], hasToolCalls := false, toolCallAccumulator := [],
    fullResponse := [] }

/-- Fragment branch of the loop body (lines 739-768): runs only when
tool_call_chunks is present and non-empty; sets hasToolCalls and folds
every fragment into the accumulator. -/
def processFragments (s : StreamLoopState) (c : StreamChunk) : StreamLoopState :=
  match c.tool_call_chunks with
  | some frags =>
    if frags.isEmpty then s
    else
      { s with
        hasToolCalls := true,
        toolCallAccumulator := frags.foldl applyToolCallChunk s.toolCallAccumulator }
  | none => s

/-- The argument object taken for a whole call (line 786):
toolCall.args, else toolCall.input, else the empty object. -/
def wholeCallArgs (tc : StreamToolCall) : Json :=
  match tc.args with
  | some j => j
  | none =>
    match tc.input with
    | some j => j
    | none => Json.obj []

/-- The buffer record built for one accepted whole call (lines
781-787).  freshId stands for the generated fallback id (a
timestamp-and-random string in the source). -/
def bufferedWholeCall (freshId : List Char) (tc : StreamToolCall) : BufferedToolCall :=
  { id := if tc.id ≠ [] then tc.id else freshId,
    name := tc.name,
    args := wholeCallArgs tc }

/-- The validity filter on whole calls (lines 773-775): a name that is
present and not blank after trimming. -/
def validWholeCalls (c : StreamChunk) : List StreamToolCall :=
  c.tool_calls.filter (fun tc => !(jsTrim tc.name).isEmpty)

/-- Whole-call branch of the loop body (lines 770-790): runs only when
tool_call_chunks is absent and tool_calls is non-empty; pushes every
valid call onto the buffer and sets hasToolCalls when at least one is
valid. -/
def processWholeToolCalls (freshId : List Char) (s : StreamLoopState) (c : StreamChunk) :
    StreamLoopState :=
  if c.tool_call_chunks.isNone && !c.tool_calls.isEmpty then
    if (validWholeCalls c).isEmpty then s
    else
      { s with
        hasToolCalls := true,
        toolCallsBuffer :=
          s.toolCallsBuffer ++ (validWholeCalls c).map (bufferedWholeCall freshId) }
  else s

/-- Narrative text contributed by one chunk, as extracted by
ThinkBlockStreamer.processChunk (part_002 lines 47-63): a string
content is appended whole; an array content contributes the text of
each block whose type is text and whose text is non-empty. -/
def contentText : ChunkContent → List Char
  | .absent => []
  | .str s => s
  | .blocks items =>
    items.foldl
      (fun acc it => if it.itemType = "text".data ∧ it.text ≠ [] then acc ++ it.text else acc)
      []

/-- Text branch of the loop body (line 793): the streamer appends this
chunk's narrative text to the running response. -/
def processContent (s : StreamLoopState) (c : StreamChunk) : StreamLoopState :=
  { s with fullResponse := s.fullResponse ++ contentText c.content }

/-- One iteration of the streaming loop over one chunk, in source
order: fragments, then whole calls, then content. -/
def streamStep (freshId : List Char) (s : StreamLoopState) (c : StreamChunk) :
    StreamLoopState :=
  processContent (processWholeToolCalls freshId (processFragments s c) c) c

/-- Whether the abort signal is observed as fired at iteration i, for
a signal that fires just before iteration k and stays fired (none
means the signal never fires). -/
def abortedAt : Option Nat → Nat → Bool
  | none, _ => false
  | some k, i => decide (k ≤ i)

/-- The streaming loop from iteration i (part_002 lines 735-794): at
each iteration the abort signal is checked first; if it is observed
the loop breaks with the state as it stands, otherwise the chunk is
processed and the loop continues. -/
def runStreamFrom (freshId : List Char) (cancelAt : Option Nat) :
    Nat → StreamLoopState → List StreamChunk → StreamLoopState
  | _, s, [] => s
  | i, s, c :: rest =>
    if abortedAt cancelAt i then s
    else runStreamFrom freshId cancelAt (i + 1) (streamStep freshId s c) rest

/-- The whole streaming loop from the initial state. -/
def runStream (freshId : List Char) (cancelAt : Option Nat) (chunks : List StreamChunk) :
    StreamLoopState :=
  runStreamFrom freshId cancelAt 0 initialStreamState chunks

/-- Reconstruction of resolved calls from the fragment accumulator
(part_002 lines 802-821): for each index in insertion order with a
non-blank name and non-empty argument text, parse the text; a
successful parse yields a resolved call (id falling back to a
generated per-index id), a failed parse drops that index only. -/
def resolveAccumulated (parse : List Char → Option Json) (freshIdAt : Nat → List Char)
    (acc : List (Nat × ToolCallAcc)) : List BufferedToolCall :=
  acc.foldl
    (fun buf p =>
      if p.2.name ≠ [] ∧ p.2.args ≠ [] then
        match parse p.2.args with
        | some j =>
          buf ++ [{ id := if p.2.id ≠ [] then p.2.id else freshIdAt p.1,
                    name := p.2.name, args := j }]
        | none => buf
      else buf)
    []

/-- The resolved-call set at stream end (part_002 lines 796-822): if
tool calls were seen and the accumulator is non-empty, the buffer is
cleared first and rebuilt from the accumulator alone; otherwise the
buffer of whole calls stands. -/
def finalizeToolCalls (parse : List Char → Option Json) (freshIdAt : Nat → List Char)
    (s : StreamLoopState) : List BufferedToolCall :=
  if s.hasToolCalls ∧ ¬s.toolCallAccumulator.isEmpty then
    resolveAccumulated parse freshIdAt s.toolCallAccumulator
  else s.toolCallsBuffer

/-- Guard under which the continuation round runs (line 827): tool
calls were seen and the final buffer is non-empty; when it holds the
resolved calls are handed to executeMCPTools with no further check of
the abort signal. -/
def toolCallsExecuted (parse : List Char → Option Json) (freshIdAt : Nat → List Char)
    (s : StreamLoopState) : Bool :=
  s.hasToolCalls && !(finalizeToolCalls parse freshIdAt s).isEmpty

/-- Substring test, the semantics of String.prototype.includes used to
match a resolved call against a mentioned canonical id (part_002 line
597). -/
def strIncludes (hay needle : List Char) : Bool :=
  (List.range (hay.length + 1)).any (fun i => decide ((hay.drop i).take needle.length = needle))

/-- One record pushed by executeMCPTools (part_002 lines 603-622):
the call id, the tool name, and either the provider payload or an
error object. -/
structure ToolExecResult where
  tool_call_id : List Char
  tool_name : List Char
  output : Json

/-- Argument extraction of executeMCPTools (lines 581-592): a truthy
argument of object type is used as is (arrays and objects; a null
argument is falsy and skipped); the input field is absent on resolved
calls here; otherwise the spread of the whole call record (its three
fields id, name, args, always a non-empty object) becomes the
arguments. -/
def extractToolArgs (tc : BufferedToolCall) : Json :=
  match tc.args with
  | Json.obj fields => Json.obj fields
  | Json.arr elems => Json.arr elems
  | other =>
    Json.obj [("id".data, Json.str tc.id), ("name".data, Json.str tc.name),
              ("args".data, other)]

/-- The result produced for one resolved call (part_002 lines
571-623): default the call id and name (freshCallId stands for the
generated timestamp-and-random fallback), extract the arguments, find
the first mentioned canonical id containing the call's name, and
either forward the call (an execution error is caught and becomes an
error payload whose id and name use the plain unknown fallbacks of the
catch block) or record a tool-not-found error payload. -/
def mkToolExecResult (exec : List Char → Json → Except (List Char) Json)
    (mentionedMCPTools : List (List Char)) (freshCallId : List Char)
    (tc : BufferedToolCall) : ToolExecResult :=
  let toolCallId := if tc.id ≠ [] then tc.id else freshCallId
  let toolName := if tc.name ≠ [] then tc.name else "unknown_tool".data
  let toolArgs := extractToolArgs tc
  match mentionedMCPTools.find? (fun n => strIncludes n toolName) with
  | some mcpToolName =>
    match exec mcpToolName toolArgs with
    | .ok r => { tool_call_id := toolCallId, tool_name := toolName, output := r }
    | .error e =>
      { tool_call_id := if tc.id ≠ [] then tc.id else "unknown".data,
        tool_name := if tc.name ≠ [] then tc.name else "unknown".data,
        output := Json.obj [("error".data, Json.str e)] }
  | none =>
    { tool_call_id := toolCallId, tool_name := toolName,
      output := Json.obj [("error".data, Json.str "Tool not found".data)] }

/-- CopilotPlusChainRunner.executeMCPTools (part_002 lines 567-627):
one pass over the resolved calls in order, pushing exactly one result
per call; a failure inside an iteration is caught there and becomes
that call's error payload, never ending the loop. -/
def executeMCPTools (exec : List Char → Json → Except (List Char) Json)
    (mentionedMCPTools : List (List Char)) (freshCallId : List Char)
    (toolCalls : List BufferedToolCall) : List ToolExecResult :=
  toolCalls.foldl
    (fun results tc => results ++ [mkToolExecResult exec mentionedMCPTools freshCallId tc]) []

/-- Conversation messages as far as the continuation step shapes them:
whatever was there before, the assistant message carrying the raw
call requests, and one tool message per execution outcome. -/
inductive ChatMsg where
  | prior (tag : Nat)
  | assistantToolCalls (content : List Char) (toolCalls : List BufferedToolCall)
  | toolResult (content : Json) (tool_call_id : List Char) (name : List Char)

/-- The tool message built for one result (part_002 lines 846-851);
the source stringifies the output into the content field, carried
structurally here. -/
def toolResultMessage (r : ToolExecResult) : ChatMsg :=
  ChatMsg.toolResult r.output r.tool_call_id r.tool_name

/-- Message appending of the continuation step (part_002 lines
836-854): push the assistant message with the raw calls, then push
one tool message per result in the order the results were produced. -/
def appendToolMessages (messages : List ChatMsg) (fullResponse : List Char)
    (toolCallsBuffer : List BufferedToolCall) (toolResults : List ToolExecResult) :
    List ChatMsg :=
  toolResults.foldl (fun ms r => ms ++ [toolResultMessage r])
    (messages ++ [ChatMsg.assistantToolCalls fullResponse toolCallsBuffer])

/-- Collected valid whole calls of a stream in arrival order: the
reference list against which whole-call acceptance is stated. -/
def collectWholeCalls (chunks : List StreamChunk) : List StreamToolCall :=
  chunks.foldl (fun acc c => acc ++ validWholeCalls c) []

/-- Stand-in for the generated timestamp-and-random fallback id used
when a buffered whole call carries none. -/
def exFreshId : List Char := "genid".data

/-- Stand-in for the generated per-index fallback id used when an
accumulated call carries none. -/
def exFreshIdAt : Nat → List Char := fun _ => "genid".data

/-- A manager whose maps are all empty. -/
def emptyMgrState : MCPClientManagerState :=
  { clients := [], transports := [], servers := [], tools := [], resources := [] }

/-- A concrete server configuration. -/
def exConfig : MCPServerConfig :=
  { name := "alpha".data, sseUrl := "http://localhost:3000/sse".data,
    apiKey := none, enabled := some true }

/-- A manager with the alpha server registered but not connected. -/
def exStConfigured : MCPClientManagerState :=
  { emptyMgrState with servers := [("alpha".data, exConfig)] }

/-- A manager with the alpha server registered, connected, and holding
catalog entries. -/
def exStConnected : MCPClientManagerState :=
  { clients := ["alpha".data], transports := ["alpha".data],
    servers := [("alpha".data, exConfig)],
    tools := [("alpha".data,
      [{ name := "echo".data, description := "d".data, inputSchema := Json.obj [] }])],
    resources := [("alpha".data, [])] }

/-- A concrete provider-local tool on the server named srv. -/
def exToolSrv : MCPTool :=
  { name := "echo".data, description := "an echo tool".data, inputSchema := Json.obj [] }

/-- A manager whose catalog holds one tool on the server named srv. -/
def exStSrv : MCPClientManagerState :=
  { clients := ["srv".data], transports := ["srv".data], servers := [],
    tools := [("srv".data, [exToolSrv])], resources := [] }

/-- The disabled-tool set containing exactly the canonical id of that
tool. -/
def exDisabledIds : List (List Char) := [encodeMCPToolId "srv".data "echo".data]

/-- A disabled-tool set whose single member is itself of canonical
form - server part srv, local part at-mcp-srv-echo - and therefore
coincides with the doubly prefixed id the enabled-tools filter
rebuilds for the catalog tool echo on server srv. -/
def exDisabledDouble : List (List Char) :=
  [encodeMCPToolId "srv".data "@mcp-srv-echo".data]

/-- A chunk carrying one complete fragment (name, argument text, and
call id all in one event) together with narrative text. -/
def c2FragChunk : StreamChunk :=
  { tool_call_chunks :=
      some [{ index := 0, name := "htool".data, args := "\x7b\x7d".data, id := "call2".data }],
    tool_calls := [], content := ChunkContent.str "hello".data }

/-- A trailing narrative-only chunk. -/
def c2TailChunk : StreamChunk :=
  { tool_call_chunks := none, tool_calls := [], content := ChunkContent.str " world".data }

/-- A two-event stream whose first event completes a tool call and
whose second carries further narrative text. -/
def c2Chunks : List StreamChunk := [c2FragChunk, c2TailChunk]

/-- The three-fragment stream of the reassembly claim: index 0 receives
the argument substrings of one JSON document across three events. -/
def c4Chunks : List StreamChunk :=
  [{ tool_call_chunks :=
       some [{ index := 0, name := "ftool".data, args := "\x7b\"a\":".data, id := "call1".data }],
     tool_calls := [], content := ChunkContent.absent },
   { tool_call_chunks := some [{ index := 0, name := [], args := "1,".data, id := [] }],
     tool_calls := [], content := ChunkContent.absent },
   { tool_call_chunks := some [{ index := 0, name := [], args := "\"b\":2\x7d".data, id := [] }],
     tool_calls := [], content := ChunkContent.absent }]

/-- A complete whole-call event payload. -/
def exWholeCall : StreamToolCall :=
  { id := "id9".data, name := "gtool".data, args := some (Json.obj []), input := none }

/-- A chunk carrying that whole call and no fragment field. -/
def c3WholeChunk : StreamChunk :=
  { tool_call_chunks := none, tool_calls := [exWholeCall], content := ChunkContent.absent }

/-- A stream consisting only of the whole-call chunk. -/
def c3aChunks : List StreamChunk := [c3WholeChunk]

/-- A stream in which fragment accumulation happens and a whole-call
event also arrives. -/
def c3bChunks : List StreamChunk :=
  [{ tool_call_chunks :=
       some [{ index := 0, name := "ftool".data, args := "\x7b\x7d".data, id := "call3".data }],
     tool_calls := [], content := ChunkContent.absent },
   c3WholeChunk]
theorem alookup_aset_self {κ α : Type} [DecidableEq κ] (k : κ) (v : α) (m : List (κ × α)) :
    alookup k (aset k v m) = some v := by
  induction m with
  | nil => simp [aset, alookup]
  | cons p rest ih =>
    by_cases h : p.1 = k
    · simp [aset, h, alookup]
    · simp [aset, h, alookup, ih]

theorem alookup_aset_ne {κ α : Type} [DecidableEq κ] (k j : κ) (v : α) (m : List (κ × α))
    (hjk : j ≠ k) : alookup j (aset k v m) = alookup j m := by
  induction m with
  | nil => simp [aset, alookup, Ne.symm hjk]
  | cons p rest ih =>
    by_cases h : p.1 = k
    · simp [aset, h, alookup, Ne.symm hjk]
    · by_cases h2 : p.1 = j
      · simp [aset, h, alookup, h2, hjk]
      · simp [aset, h, alookup, h2, ih]

theorem alookup_append {κ α : Type} [DecidableEq κ] (k : κ) (m1 m2 : List (κ × α)) :
    alookup k (m1 ++ m2) = ((alookup k m1).rec (alookup k m2) fun v => some v) := by
  induction m1 with
  | nil => simp [alookup]
  | cons p rest ih =>
    by_cases h : p.1 = k
    · simp [alookup, h]
    · simp [alookup, h, ih]

theorem splitFirstSepAux_no_sep (s : List Char) (hs : '-' ∉ s) :
    ∀ (acc t : List Char), t ≠ [] →
      splitFirstSepAux acc (s ++ '-' :: t) = some (acc ++ s, t) := by
  induction s with
  | nil =>
    intro acc t ht
    simp [splitFirstSepAux, ht]
  | cons c s2 ih =>
    intro acc t ht
    have hc : c ≠ '-' := by
      rintro rfl
      exact hs (List.mem_cons_self _ _)
    have hs2 : '-' ∉ s2 := fun h => hs (List.mem_cons_of_mem _ h)
    simp [List.cons_append, splitFirstSepAux, hc, ih hs2 (acc ++ [c]) t ht]

theorem decode_encode_eq (s t : List Char) (hs0 : s ≠ []) (hs : '-' ∉ s) (ht : t ≠ [])
    (hsl : s.all (fun c => !isLineTerminator c) = true)
    (htl : t.all (fun c => !isLineTerminator c) = true) :
    decodeMCPToolId (encodeMCPToolId s t) = some (s, t) := by
  have hguard : (s ++ '-' :: t).all (fun c => !isLineTerminator c) = true := by
    rw [List.all_append, hsl, List.all_cons, htl]
    rfl
  cases s with
  | nil => exact absurd rfl hs0
  | cons c s2 =>
    have hs2 : '-' ∉ s2 := fun h => hs (List.mem_cons_of_mem _ h)
    show decodeMCPToolId (mcpTag ++ (c :: s2) ++ '-' :: t) = _
    simp only [mcpTag, List.cons_append, List.nil_append, List.append_assoc]
    show (if ((c :: s2) ++ '-' :: t).all (fun x => !isLineTerminator x) then
        splitFirstSep ((c :: s2) ++ '-' :: t) else none) = _
    rw [if_pos hguard]
    show splitFirstSep ((c :: s2) ++ '-' :: t) = _
    simp only [List.cons_append, splitFirstSep]
    rw [splitFirstSepAux_no_sep s2 hs2 [c] t ht]
    simp

/-- Claim C1, counterexample: the round-trip property as stated fails
at three inputs whose server name contains no dash.  With an empty
local name the encoded id at-mcp-a- does not decode at all; with an
empty server name the encoded id of the pair (empty, a-b) decodes to
the different pair (-a, b); and with a line feed in the server name
the source regex - whose dots do not match line terminators - fails to
match, so the encoded id of (a-newline, x) does not decode. -/
theorem mcp_id_roundtrip_cex :
    decodeMCPToolId (encodeMCPToolId ['a'] []) ≠ some (['a'], []) ∧
    decodeMCPToolId (encodeMCPToolId [] ['a', '-', 'b']) = some (['-', 'a'], ['b']) ∧
    decodeMCPToolId (encodeMCPToolId ['a', '\n'] ['x']) = none ∧
    ('-' ∉ (['a'] : List Char)) ∧ ('-' ∉ ([] : List Char)) ∧
    ('-' ∉ (['a', '\n'] : List Char)) ∧ (['a', '\n'] : List Char) ≠ [] ∧
    (['x'] : List Char) ≠ [] := by
  refine ⟨by decide, by decide, by decide, by decide, by decide, by decide, by decide,
    by decide⟩

/-- Claim C1 (amended): for every pair of a non-empty server name that
contains neither the separator nor a line terminator and a non-empty
local name free of line terminators (the local name may contain the
separator), decoding the id produced by getAllMCPTools with the
first-occurrence split performed by executeMCPTool recovers exactly
the original pair. -/
theorem mcp_id_roundtrip (s t : List Char) (hs0 : s ≠ []) (hs : '-' ∉ s) (ht : t ≠ [])
    (hsl : s.all (fun c => !isLineTerminator c) = true)
    (htl : t.all (fun c => !isLineTerminator c) = true) :
    decodeMCPToolId (encodeMCPToolId s t) = some (s, t) :=
  decode_encode_eq s t hs0 hs ht hsl htl

/-- Witness for the amended round-trip claim at the concrete pair
(alpha, e-cho), whose local name contains the separator. -/
theorem mcp_id_roundtrip_wit :
    ("alpha".data ≠ [] ∧ '-' ∉ "alpha".data ∧ "e-cho".data ≠ [] ∧
      "alpha".data.all (fun c => !isLineTerminator c) = true ∧
      "e-cho".data.all (fun c => !isLineTerminator c) = true) ∧
    decodeMCPToolId (encodeMCPToolId "alpha".data "e-cho".data) =
      some ("alpha".data, "e-cho".data) :=
  ⟨⟨by decide, by decide, by decide, by decide, by decide⟩,
    mcp_id_roundtrip "alpha".data "e-cho".data (by decide) (by decide) (by decide)
      (by decide) (by decide)⟩

theorem foldl_push_eq_map {α β : Type} (f : α → β) (l : List α) :
    ∀ (init : List β), l.foldl (fun acc x => acc ++ [f x]) init = init ++ l.map f := by
  induction l with
  | nil => intro init; simp
  | cons x l ih =>
    intro init
    simp only [List.foldl_cons, List.map_cons]
    rw [ih]
    simp

theorem foldl_append_eq_flatten {α β : Type} (g : α → List β) (l : List α) :
    ∀ (init : List β),
      l.foldl (fun acc x => acc ++ g x) init = init ++ (l.map g).flatten := by
  induction l with
  | nil => intro init; simp
  | cons x l ih =>
    intro init
    simp only [List.foldl_cons, List.map_cons, List.flatten_cons]
    rw [ih]
    simp

theorem collectWholeCalls_eq (chunks : List StreamChunk) :
    collectWholeCalls chunks = (chunks.map validWholeCalls).flatten :=
  by simpa using foldl_append_eq_flatten validWholeCalls chunks []

theorem collectWholeCalls_cons (c : StreamChunk) (rest : List StreamChunk) :
    collectWholeCalls (c :: rest) = validWholeCalls c ++ collectWholeCalls rest := by
  simp [collectWholeCalls_eq]

theorem getAllMCPTools_eq (st : MCPClientManagerState) :
    getAllMCPTools st = (st.tools.map (fun p => p.2.map (mkToolEntry p.1))).flatten := by
  have aux : ∀ (tl : List (List Char × List MCPTool)) (init : List MCPToolEntry),
      tl.foldl (fun allTools p => p.2.foldl (fun acc t => acc ++ [mkToolEntry p.1 t]) allTools)
          init
        = init ++ (tl.map (fun p => p.2.map (mkToolEntry p.1))).flatten := by
    intro tl
    induction tl with
    | nil => intro init; simp
    | cons p rest ih =>
      intro init
      simp only [List.foldl_cons, List.map_cons, List.flatten_cons]
      rw [foldl_push_eq_map (mkToolEntry p.1) p.2 init, ih]
      simp
  simpa using aux st.tools []

theorem mem_getAllMCPTools {st : MCPClientManagerState} {e : MCPToolEntry}
    (he : e ∈ getAllMCPTools st) :
    ∃ p, p ∈ st.tools ∧ ∃ t, t ∈ p.2 ∧ e = mkToolEntry p.1 t := by
  rw [getAllMCPTools_eq] at he
  rw [List.mem_flatten] at he
  obtain ⟨l, hl, hel⟩ := he
  rw [List.mem_map] at hl
  obtain ⟨p, hp, rfl⟩ := hl
  rw [List.mem_map] at hel
  obtain ⟨t, ht, rfl⟩ := hel
  exact ⟨p, hp, t, ht, rfl⟩

theorem sep_split_inj : ∀ (a b x y : List Char), '-' ∉ a → '-' ∉ b →
    a ++ '-' :: x = b ++ '-' :: y → a = b ∧ x = y := by
  intro a
  induction a with
  | nil =>
    intro b x y _ hb h
    cases b with
    | nil => simpa using h
    | cons d b2 =>
      exfalso
      simp only [List.nil_append, List.cons_append, List.cons.injEq] at h
      exact hb (by rw [← h.1]; exact List.mem_cons_self _ _)
  | cons c a2 ih =>
    intro b x y ha hb h
    cases b with
    | nil =>
      exfalso
      simp only [List.cons_append, List.nil_append, List.cons.injEq] at h
      exact ha (by rw [h.1]; exact List.mem_cons_self _ _)
    | cons d b2 =>
      simp only [List.cons_append, List.cons.injEq] at h
      have ha2 : '-' ∉ a2 := fun hm => ha (List.mem_cons_of_mem _ hm)
      have hb2 : '-' ∉ b2 := fun hm => hb (List.mem_cons_of_mem _ hm)
      obtain ⟨hab, hxy⟩ := ih b2 x y ha2 hb2 h.2
      exact ⟨by rw [h.1, hab], hxy⟩

/-- Claim C5: for every canonical tool id in the disabled-tool set and
every argument value, executeMCPTool fails with the tool-disabled
error, whatever the connection state and whatever the remote call
would return - in particular the result does not depend on whether the
id is well-formed or on the remote call, which is never consulted. -/
theorem disabled_tool_precedence (disabledTools : List (List Char))
    (st : MCPClientManagerState)
    (callTool : List Char → List Char → Json → Except (List Char) Json)
    (toolName : List Char) (args : Json) (h : toolName ∈ disabledTools) :
    executeMCPTool disabledTools st callTool toolName args
      = Except.error (ExecError.toolDisabled toolName) := by
  simp [executeMCPTool, h]

/-- Witness for the disabled-tool precedence claim: a disabled id that
is not even well-formed, on a manager with no connections, with a
remote call that would succeed, still fails with ToolDisabled. -/
theorem disabled_tool_precedence_wit :
    ("zzz".data ∈ ["zzz".data]) ∧
    executeMCPTool ["zzz".data] emptyMgrState (fun _ _ _ => Except.ok Json.null)
        "zzz".data Json.null
      = Except.error (ExecError.toolDisabled "zzz".data) :=
  ⟨by decide,
    disabled_tool_precedence ["zzz".data] emptyMgrState
      (fun _ _ _ => Except.ok Json.null) "zzz".data Json.null (by decide)⟩

theorem mem_skDelete (k j : List Char) (m : List (List Char)) :
    j ∈ skDelete k m ↔ j ∈ m ∧ j ≠ k := by
  simp [skDelete, List.mem_filter]

theorem alookup_aeraseKey_self {κ α : Type} [DecidableEq κ] (k : κ) (m : List (κ × α)) :
    alookup k (aeraseKey k m) = none := by
  induction m with
  | nil => simp [aeraseKey, alookup]
  | cons p rest ih =>
    by_cases h : p.1 = k
    · simpa [aeraseKey, List.filter_cons, h] using ih
    · simpa [aeraseKey, List.filter_cons, h, alookup] using ih

/-- Claim C7, counterexample: when closing the client session throws
(first close failing, second succeeding), the source skips the
clients-map delete, so after disconnectFromServer completes the server
still reports as connected - even though the catalog entries are
removed.  The claim requires isServerConnected to return false after
every disconnect run. -/
theorem disconnect_postcondition_cex :
    isServerConnected (disconnectFromServer exStConnected "alpha".data false true)
        "alpha".data = true ∧
    alookup "alpha".data
        (disconnectFromServer exStConnected "alpha".data false true).tools = none := by
  exact ⟨rfl, rfl⟩

/-- Claim C7 (amended): after disconnectFromServer the tool and
resource catalog entries for the server are always removed, whatever
the close outcomes; the client handle is removed exactly when closing
the session succeeded (so isServerConnected reports false after the
run iff the server was disconnected or its session close did not
throw), and likewise the transport handle is removed exactly when
closing the transport succeeded. -/
theorem disconnect_postcondition (st : MCPClientManagerState) (serverName : List Char)
    (clientCloseOk transportCloseOk : Bool) :
    alookup serverName
        (disconnectFromServer st serverName clientCloseOk transportCloseOk).tools = none ∧
    alookup serverName
        (disconnectFromServer st serverName clientCloseOk transportCloseOk).resources
      = none ∧
    isServerConnected (disconnectFromServer st serverName clientCloseOk transportCloseOk)
        serverName
      = (isServerConnected st serverName && !clientCloseOk) ∧
    decide (serverName ∈
        (disconnectFromServer st serverName clientCloseOk transportCloseOk).transports)
      = (decide (serverName ∈ st.transports) && !transportCloseOk) := by
  by_cases hc : serverName ∈ st.clients <;> by_cases ht : serverName ∈ st.transports <;>
    cases clientCloseOk <;> cases transportCloseOk <;>
      simp [disconnectFromServer, isServerConnected, hc, ht, alookup_aeraseKey_self,
            mem_skDelete]

/-- Claim C8: connectToServer fails with a not-found error when no
configuration is registered under the name, and a failed handshake
surfaces a connection error with the whole registry state unchanged -
no partial handle or catalog entry is retained, because the source
stores handles only after the handshake resolves. -/
theorem connect_atomicity (st : MCPClientManagerState) (serverName : List Char)
    (handshakeOk : Bool) (toolsOutcome : ListOutcome RawTool)
    (resourcesOutcome : ListOutcome MCPResource) :
    (alookup serverName st.servers = none →
      connectToServer st serverName handshakeOk toolsOutcome resourcesOutcome
        = (st, some (ConnectError.serverNotFound serverName))) ∧
    (∀ cfg, alookup serverName st.servers = some cfg → handshakeOk = false →
      connectToServer st serverName handshakeOk toolsOutcome resourcesOutcome
        = (st, some ConnectError.connectionFailed)) := by
  constructor
  · intro h
    simp [connectToServer, h]
  · intro cfg h hf
    simp [connectToServer, h, hf]

/-- Witness for connect atomicity: an unregistered name fails with
not-found, and a registered name whose handshake fails leaves the
state untouched and surfaces the connection error. -/
theorem connect_atomicity_wit :
    (alookup "alpha".data emptyMgrState.servers = none ∧
      connectToServer emptyMgrState "alpha".data true ListOutcome.okMissing
          ListOutcome.okMissing
        = (emptyMgrState, some (ConnectError.serverNotFound "alpha".data))) ∧
    (alookup "alpha".data exStConfigured.servers = some exConfig ∧
      connectToServer exStConfigured "alpha".data false ListOutcome.okMissing
          ListOutcome.okMissing
        = (exStConfigured, some ConnectError.connectionFailed)) :=
  ⟨⟨rfl, (connect_atomicity emptyMgrState "alpha".data true ListOutcome.okMissing
      ListOutcome.okMissing).1 rfl⟩,
   ⟨rfl, (connect_atomicity exStConfigured "alpha".data false ListOutcome.okMissing
      ListOutcome.okMissing).2 exConfig rfl rfl⟩⟩

/-- Claim C9: for a connected server, a method-not-found failure of
the tool-list or resource-list request records an empty catalog list
for that capability while the connection handles are untouched (the
server is not marked failed), and any other failure of the request
leaves the whole state - in particular the previous catalog entry -
exactly as it was. -/
theorem capability_tolerance (st : MCPClientManagerState) (serverName : List Char)
    (h : serverName ∈ st.clients) :
    alookup serverName (loadServerTools st serverName ListOutcome.methodNotFound).tools
      = some [] ∧
    (loadServerTools st serverName ListOutcome.methodNotFound).clients = st.clients ∧
    loadServerTools st serverName ListOutcome.otherError = st ∧
    alookup serverName
        (loadServerResources st serverName ListOutcome.methodNotFound).resources
      = some [] ∧
    (loadServerResources st serverName ListOutcome.methodNotFound).clients = st.clients ∧
    loadServerResources st serverName ListOutcome.otherError = st := by
  refine ⟨?_, ?_, ?_, ?_, ?_, ?_⟩ <;>
    simp [loadServerTools, loadServerResources, h, alookup_aset_self]

/-- Witness for capability tolerance at a connected server with an
existing catalog entry. -/
theorem capability_tolerance_wit :
    ("alpha".data ∈ exStConnected.clients) ∧
    alookup "alpha".data
        (loadServerTools exStConnected "alpha".data ListOutcome.methodNotFound).tools
      = some [] ∧
    loadServerTools exStConnected "alpha".data ListOutcome.otherError = exStConnected :=
  ⟨by decide,
    (capability_tolerance exStConnected "alpha".data (by decide)).1,
    (capability_tolerance exStConnected "alpha".data (by decide)).2.2.1⟩

theorem encode_eq_iff_parts (a x b y : List Char) :
    encodeMCPToolId a x = encodeMCPToolId b y ↔ a ++ '-' :: x = b ++ '-' :: y := by
  constructor
  · intro h
    have h2 : mcpTag ++ (a ++ '-' :: x) = mcpTag ++ (b ++ '-' :: y) := by
      simpa [encodeMCPToolId, List.append_assoc] using h
    exact List.append_cancel_left h2
  · intro h
    simp [encodeMCPToolId, List.append_assoc, h]

/-- Claim C6, counterexample: the claim as frozen fails at a disabled
set whose member is a canonical-form id whose local part itself starts
with the marker.  The member encodes the pair (srv, at-mcp-srv-echo) -
a non-empty dash-free server part and a non-empty local part - yet it
equals the doubly prefixed string the filter rebuilds for the catalog
tool (srv, echo), so that tool is filtered out and getEnabledMCPTools
differs from getAllMCPTools. -/
theorem enabled_listing_ignores_disabled_cex :
    exDisabledDouble = [encodeMCPToolId "srv".data "@mcp-srv-echo".data] ∧
    ('-' ∉ "srv".data) ∧ "srv".data ≠ [] ∧ "@mcp-srv-echo".data ≠ [] ∧
    getAllMCPTools exStSrv = [mkToolEntry "srv".data exToolSrv] ∧
    getEnabledMCPTools exDisabledDouble exStSrv = [] ∧
    getEnabledMCPTools exDisabledDouble exStSrv ≠ getAllMCPTools exStSrv := by
  refine ⟨rfl, by decide, by decide, by decide, by decide, by decide, by decide⟩

/-- Claim C6 (amended): when every member of the disabled-tool set is
a plain canonical id (the marker, a dash-free server name, a dash, and
a local name that does not itself start with the marker) and the
catalog's server names are dash-free, getEnabledMCPTools returns
exactly the same list as getAllMCPTools: the filter compares a doubly
prefixed rebuilt string against the disabled set, and such a string
can never equal a plain canonical id, so even a tool whose canonical
id is disabled remains listed.  (The counterexample above shows the
local-part restriction is needed: a member whose local part starts
with the marker can coincide with a rebuilt id.) -/
theorem enabled_listing_ignores_disabled (disabledTools : List (List Char))
    (st : MCPClientManagerState)
    (h1 : ∀ p ∈ st.tools, '-' ∉ p.1)
    (h2 : ∀ d ∈ disabledTools, ∃ s l, d = encodeMCPToolId s l ∧ '-' ∉ s ∧
      ∀ l2, l ≠ mcpTag ++ l2) :
    getEnabledMCPTools disabledTools st = getAllMCPTools st := by
  unfold getEnabledMCPTools
  rw [List.filter_eq_self]
  intro e he
  simp only [Bool.not_eq_true', decide_eq_false_iff_not]
  intro hd
  obtain ⟨s, l, heq, hs, hl⟩ := h2 _ hd
  obtain ⟨p, hp, t, ht, rfl⟩ := mem_getAllMCPTools he
  have heq2 : p.1 ++ '-' :: encodeMCPToolId p.1 t.name = s ++ '-' :: l := by
    have h3 : encodeMCPToolId p.1 (encodeMCPToolId p.1 t.name) = encodeMCPToolId s l := heq
    exact (encode_eq_iff_parts p.1 (encodeMCPToolId p.1 t.name) s l).1 h3
  obtain ⟨hps, hXl⟩ := sep_split_inj p.1 s (encodeMCPToolId p.1 t.name) l (h1 p hp) hs heq2
  exact hl (p.1 ++ '-' :: t.name) (by rw [← hXl]; simp [encodeMCPToolId, List.append_assoc])

/-- Witness for the enabled-listing claim: one server named srv with
one tool named echo, whose canonical id is the sole member of the
disabled set; the enabled listing still equals the full listing. -/
theorem enabled_listing_ignores_disabled_wit :
    ((∀ p ∈ exStSrv.tools, '-' ∉ p.1) ∧
      (∀ d ∈ exDisabledIds, ∃ s l, d = encodeMCPToolId s l ∧ '-' ∉ s ∧
        ∀ l2, l ≠ mcpTag ++ l2)) ∧
    getEnabledMCPTools exDisabledIds exStSrv = getAllMCPTools exStSrv := by
  have hh1 : ∀ p ∈ exStSrv.tools, '-' ∉ p.1 := by decide
  have hh2 : ∀ d ∈ exDisabledIds, ∃ s l, d = encodeMCPToolId s l ∧ '-' ∉ s ∧
      ∀ l2, l ≠ mcpTag ++ l2 := by
    intro d hd
    have hd2 : d = encodeMCPToolId "srv".data "echo".data := by
      simpa [exDisabledIds] using hd
    subst hd2
    refine ⟨"srv".data, "echo".data, rfl, by decide, ?_⟩
    intro l2 hbad
    simp [mcpTag] at hbad
  exact ⟨⟨hh1, hh2⟩, enabled_listing_ignores_disabled exDisabledIds exStSrv hh1 hh2⟩

theorem runStreamFrom_cancel (fid : List Char) (k : Nat) (chunks : List StreamChunk) :
    ∀ (i : Nat) (s : StreamLoopState),
      runStreamFrom fid (some k) i s chunks
        = runStreamFrom fid none i s (chunks.take (k - i)) := by
  induction chunks with
  | nil => intro i s; simp [runStreamFrom]
  | cons c rest ih =>
    intro i s
    by_cases h : k ≤ i
    · have h0 : k - i = 0 := Nat.sub_eq_zero_of_le h
      simp [runStreamFrom, abortedAt, h, h0]
    · have h2 : k - i = (k - (i + 1)) + 1 := by omega
      rw [h2]
      simp only [runStreamFrom, abortedAt, List.take_succ_cons, decide_eq_true_eq, h,
        Bool.false_eq_true, if_false]
      rw [ih (i + 1) (streamStep fid s c)]

/-- Claim C2, counterexample: the abort signal fires before the second
of two events, after the first event has delivered a complete
fragment.  The loop does stop (the second event's narrative text is
absent from the buffered answer) - yet the fragment accumulated before
cancellation is still parsed into a resolved call and the
execute-tools guard still fires, so tool resolution and execution do
occur after cancellation, contradicting the claim. -/
theorem stream_cancellation_cex :
    toolCallsExecuted parseJson exFreshIdAt (runStream exFreshId (some 1) c2Chunks)
      = true ∧
    finalizeToolCalls parseJson exFreshIdAt (runStream exFreshId (some 1) c2Chunks)
      = [{ id := "call2".data, name := "htool".data, args := Json.obj [] }] ∧
    (runStream exFreshId (some 1) c2Chunks).fullResponse = "hello".data ∧
    c2Chunks.length = 2 :=
  ⟨rfl, rfl, rfl, rfl⟩

/-- Claim C2 (amended): when the cancellation signal fires before
iteration k, the streaming loop stops there: its final state -
including the narrative text buffered as the partial answer - is
exactly that of an uncancelled run over the first k events, and no
event from the cancellation point on is processed.  However, the
resolved-call set and the execute-tools guard are then computed from
that truncated state with no further abort check, so fragments
accumulated before cancellation are still parsed and executed, exactly
as they would be had the stream ended at the cancellation point. -/
theorem stream_cancellation (fid : List Char) (parse : List Char → Option Json)
    (fidAt : Nat → List Char) (k : Nat) (chunks : List StreamChunk) :
    runStream fid (some k) chunks = runStream fid none (chunks.take k) ∧
    (runStream fid (some k) chunks).fullResponse
      = (runStream fid none (chunks.take k)).fullResponse ∧
    finalizeToolCalls parse fidAt (runStream fid (some k) chunks)
      = finalizeToolCalls parse fidAt (runStream fid none (chunks.take k)) ∧
    toolCallsExecuted parse fidAt (runStream fid (some k) chunks)
      = toolCallsExecuted parse fidAt (runStream fid none (chunks.take k)) := by
  have h := runStreamFrom_cancel fid k chunks 0 initialStreamState
  rw [Nat.sub_zero] at h
  exact ⟨h, by rw [runStream, runStream, h], by rw [runStream, runStream, h],
    by rw [runStream, runStream, h]⟩

theorem executeMCPTools_eq_map (exec : List Char → Json → Except (List Char) Json)
    (mentionedMCPTools : List (List Char)) (freshCallId : List Char)
    (toolCalls : List BufferedToolCall) :
    executeMCPTools exec mentionedMCPTools freshCallId toolCalls
      = toolCalls.map (mkToolExecResult exec mentionedMCPTools freshCallId) := by
  simpa [executeMCPTools] using
    foldl_push_eq_map (mkToolExecResult exec mentionedMCPTools freshCallId) toolCalls []

theorem appendToolMessages_eq (messages : List ChatMsg) (fullResponse : List Char)
    (buffer : List BufferedToolCall) (results : List ToolExecResult) :
    appendToolMessages messages fullResponse buffer results
      = messages ++ [ChatMsg.assistantToolCalls fullResponse buffer]
          ++ results.map toolResultMessage := by
  simpa [appendToolMessages] using
    foldl_push_eq_map toolResultMessage results
      (messages ++ [ChatMsg.assistantToolCalls fullResponse buffer])

/-- Claim C10: executeMCPTools yields exactly one result per resolved
call, in resolved-call order, and each result is a function of its own
call alone (so one call's failure becomes its own error payload and
cannot affect any sibling's outcome); the continuation step then
appends the per-call tool-result messages to the conversation after
the assistant message, in that same order - the message at offset j
among the appended tool messages belongs to call j.  (The source
executes the calls sequentially, awaiting each in turn, which realises
the claimed index order trivially.) -/
theorem tool_fanout_order (exec : List Char → Json → Except (List Char) Json)
    (mentionedMCPTools : List (List Char)) (freshCallId : List Char)
    (toolCalls : List BufferedToolCall) :
    (executeMCPTools exec mentionedMCPTools freshCallId toolCalls).length
      = toolCalls.length ∧
    (∀ i : Nat,
      (executeMCPTools exec mentionedMCPTools freshCallId toolCalls)[i]?
        = (toolCalls[i]?).map (mkToolExecResult exec mentionedMCPTools freshCallId)) ∧
    (∀ (messages : List ChatMsg) (fullResponse : List Char),
      appendToolMessages messages fullResponse toolCalls
          (executeMCPTools exec mentionedMCPTools freshCallId toolCalls)
        = messages ++ [ChatMsg.assistantToolCalls fullResponse toolCalls]
            ++ (toolCalls.map (mkToolExecResult exec mentionedMCPTools freshCallId)).map
                toolResultMessage) ∧
    (∀ (messages : List ChatMsg) (fullResponse : List Char) (j : Nat),
      (appendToolMessages messages fullResponse toolCalls
          (executeMCPTools exec mentionedMCPTools freshCallId
            toolCalls))[messages.length + 1 + j]?
        = (toolCalls[j]?).map
            (fun tc =>
              toolResultMessage (mkToolExecResult exec mentionedMCPTools freshCallId tc))) := by
  refine ⟨?_, ?_, ?_, ?_⟩
  · rw [executeMCPTools_eq_map]
    simp
  · intro i
    rw [executeMCPTools_eq_map]
    simp [List.getElem?_map]
  · intro messages fullResponse
    rw [executeMCPTools_eq_map, appendToolMessages_eq]
  · intro messages fullResponse j
    rw [executeMCPTools_eq_map, appendToolMessages_eq]
    have hlen : (messages ++ [ChatMsg.assistantToolCalls fullResponse toolCalls]).length
        ≤ messages.length + 1 + j := by
      simp
    rw [List.getElem?_append_right hlen]
    have hidx : messages.length + 1 + j
        - (messages ++ [ChatMsg.assistantToolCalls fullResponse toolCalls]).length = j := by
      simp
    rw [hidx]
    simp only [List.getElem?_map]
    cases toolCalls[j]? <;> rfl

theorem alookup_append_self {κ α : Type} [DecidableEq κ] (k : κ) (v : α) (m : List (κ × α))
    (h : alookup k m = none) : alookup k (m ++ [(k, v)]) = some v := by
  rw [alookup_append, h]
  simp [alookup]

theorem alookup_append_singleton_ne {κ α : Type} [DecidableEq κ] (k j : κ) (v : α)
    (m : List (κ × α)) (hj : j ≠ k) : alookup j (m ++ [(k, v)]) = alookup j m := by
  rw [alookup_append]
  cases h2 : alookup j m with
  | none => simp [alookup, Ne.symm hj]
  | some v2 => rfl

theorem applyChunk_lookup_self (acc : List (Nat × ToolCallAcc)) (c : ToolCallChunk) :
    alookup c.index (applyToolCallChunk acc c)
      = some { name := if c.name ≠ [] then c.name
                 else ((alookup c.index acc).getD ⟨[], [], c.id⟩).name,
               args := ((alookup c.index acc).getD ⟨[], [], c.id⟩).args ++ c.args,
               id := if c.id ≠ [] then c.id
                 else ((alookup c.index acc).getD ⟨[], [], c.id⟩).id } := by
  cases h : alookup c.index acc with
  | none =>
    by_cases hn : c.name = [] <;> by_cases hg : c.args = [] <;> by_cases hi : c.id = [] <;>
      simp [applyToolCallChunk, h, alookup_append_self, alookup_aset_self, hn, hg, hi]
  | some a =>
    by_cases hn : c.name = [] <;> by_cases hg : c.args = [] <;> by_cases hi : c.id = [] <;>
      simp [applyToolCallChunk, h, alookup_aset_self, hn, hg, hi]

theorem applyChunk_lookup_ne (acc : List (Nat × ToolCallAcc)) (c : ToolCallChunk) (j : Nat)
    (hj : j ≠ c.index) :
    alookup j (applyToolCallChunk acc c) = alookup j acc := by
  cases h : alookup c.index acc with
  | none =>
    have h0 : alookup c.index (acc ++ [(c.index, (⟨[], [], c.id⟩ : ToolCallAcc))])
        = some (⟨[], [], c.id⟩ : ToolCallAcc) := alookup_append_self _ _ _ h
    simp only [applyToolCallChunk, h, h0]
    rw [alookup_aset_ne _ _ _ _ hj, alookup_append_singleton_ne _ _ _ _ hj]
  | some a =>
    simp only [applyToolCallChunk, h]
    rw [alookup_aset_ne _ _ _ _ hj]

/-- Claim C4: for every accumulator state, a fragment for index i
leaves every other index untouched and updates index i by appending
the fragment's argument substring to the existing argument buffer
(never replacing it; the buffer of a first-seen index starts empty),
by overwriting the name only when the fragment carries a non-blank one
(so a name, once set, survives every blank update), and by overwriting
the id only when the fragment carries one.  Concretely, the
three-fragment stream delivering the argument substrings of one JSON
document for index 0 resolves, at stream end, to a single call whose
parsed argument value is the two-field object with a mapped to 1 and b
mapped to 2. -/
theorem fragment_reassembly :
    (∀ (acc : List (Nat × ToolCallAcc)) (c : ToolCallChunk),
      alookup c.index (applyToolCallChunk acc c)
        = some { name := if c.name ≠ [] then c.name
                   else ((alookup c.index acc).getD ⟨[], [], c.id⟩).name,
                 args := ((alookup c.index acc).getD ⟨[], [], c.id⟩).args ++ c.args,
                 id := if c.id ≠ [] then c.id
                   else ((alookup c.index acc).getD ⟨[], [], c.id⟩).id }) ∧
    (∀ (acc : List (Nat × ToolCallAcc)) (c : ToolCallChunk) (j : Nat), j ≠ c.index →
      alookup j (applyToolCallChunk acc c) = alookup j acc) ∧
    finalizeToolCalls parseJson exFreshIdAt (runStream exFreshId none c4Chunks)
      = [{ id := "call1".data, name := "ftool".data,
           args := Json.obj [("a".data, Json.num 1), ("b".data, Json.num 2)] }] :=
  ⟨applyChunk_lookup_self, applyChunk_lookup_ne, rfl⟩

/-- Witness for the fragment-reassembly claim: the other-index clause
applied at index 1 against a fragment for index 0. -/
theorem fragment_reassembly_wit :
    ((1 : Nat) ≠ (0 : Nat)) ∧
    alookup 1 (applyToolCallChunk []
        { index := 0, name := "f".data, args := "x".data, id := [] })
      = alookup 1 ([] : List (Nat × ToolCallAcc)) :=
  ⟨by decide,
    fragment_reassembly.2.1 [] { index := 0, name := "f".data, args := "x".data, id := [] }
      1 (by decide)⟩

theorem processFragments_none {s : StreamLoopState} {c : StreamChunk}
    (h : c.tool_call_chunks = none) : processFragments s c = s := by
  simp [processFragments, h]

theorem streamStep_no_frag (fid : List Char) (s : StreamLoopState) (c : StreamChunk)
    (h : c.tool_call_chunks = none) :
    (streamStep fid s c).toolCallAccumulator = s.toolCallAccumulator ∧
    (streamStep fid s c).toolCallsBuffer
      = s.toolCallsBuffer ++ (validWholeCalls c).map (bufferedWholeCall fid) := by
  unfold streamStep
  rw [processFragments_none h]
  by_cases hw : c.tool_calls.isEmpty
  · have hv : validWholeCalls c = [] := by
      simp [validWholeCalls, List.isEmpty_iff.1 hw]
    simp [processWholeToolCalls, processContent, h, hw, hv]
  · by_cases hvv : (validWholeCalls c).isEmpty
    · simp [processWholeToolCalls, processContent, h, hw, hvv, List.isEmpty_iff.1 hvv]
    · simp [processWholeToolCalls, processContent, h, hw, hvv]

theorem runStream_no_frag (fid : List Char) :
    ∀ (chunks : List StreamChunk), (∀ c ∈ chunks, c.tool_call_chunks = none) →
    ∀ (i : Nat) (s : StreamLoopState),
      (runStreamFrom fid none i s chunks).toolCallAccumulator = s.toolCallAccumulator ∧
      (runStreamFrom fid none i s chunks).toolCallsBuffer
        = s.toolCallsBuffer ++ (collectWholeCalls chunks).map (bufferedWholeCall fid) := by
  intro chunks
  induction chunks with
  | nil => intro _ i s; simp [runStreamFrom, collectWholeCalls]
  | cons c rest ih =>
    intro h i s
    have hc : c.tool_call_chunks = none := h c (List.mem_cons_self _ _)
    have hrest : ∀ c2 ∈ rest, c2.tool_call_chunks = none :=
      fun c2 hm => h c2 (List.mem_cons_of_mem _ hm)
    obtain ⟨ha, hb⟩ := ih hrest (i + 1) (streamStep fid s c)
    obtain ⟨ha2, hb2⟩ := streamStep_no_frag fid s c hc
    have hrun : runStreamFrom fid none i s (c :: rest)
        = runStreamFrom fid none (i + 1) (streamStep fid s c) rest := by
      simp [runStreamFrom, abortedAt]
    refine ⟨by rw [hrun, ha, ha2], ?_⟩
    rw [hrun, hb, hb2, collectWholeCalls_cons]
    simp [List.append_assoc]

theorem processWholeToolCalls_acc (fid : List Char) (s : StreamLoopState) (c : StreamChunk) :
    (processWholeToolCalls fid s c).toolCallAccumulator = s.toolCallAccumulator := by
  unfold processWholeToolCalls
  by_cases h1 : (c.tool_call_chunks.isNone && !c.tool_calls.isEmpty) = true
  · by_cases h2 : (validWholeCalls c).isEmpty <;> simp [h1, h2]
  · simp [h1]

theorem processWholeToolCalls_has (fid : List Char) (s : StreamLoopState) (c : StreamChunk)
    (h : s.hasToolCalls = true) : (processWholeToolCalls fid s c).hasToolCalls = true := by
  unfold processWholeToolCalls
  by_cases h1 : (c.tool_call_chunks.isNone && !c.tool_calls.isEmpty) = true
  · by_cases h2 : (validWholeCalls c).isEmpty <;> simp [h1, h2, h]
  · simp [h1, h]

theorem processFragments_inv (s : StreamLoopState) (c : StreamChunk)
    (h : ¬s.toolCallAccumulator.isEmpty → s.hasToolCalls = true) :
    ¬(processFragments s c).toolCallAccumulator.isEmpty →
      (processFragments s c).hasToolCalls = true := by
  unfold processFragments
  cases hc : c.tool_call_chunks with
  | none => exact h
  | some frags =>
    by_cases he : frags.isEmpty
    · simpa [he] using h
    · simp [he]

theorem streamStep_inv (fid : List Char) (s : StreamLoopState) (c : StreamChunk)
    (h : ¬s.toolCallAccumulator.isEmpty → s.hasToolCalls = true) :
    ¬(streamStep fid s c).toolCallAccumulator.isEmpty →
      (streamStep fid s c).hasToolCalls = true := by
  intro hne
  have hacc : (streamStep fid s c).toolCallAccumulator
      = (processFragments s c).toolCallAccumulator := by
    show (processContent (processWholeToolCalls fid (processFragments s c) c)
        c).toolCallAccumulator = _
    have : (processContent (processWholeToolCalls fid (processFragments s c) c)
        c).toolCallAccumulator
        = (processWholeToolCalls fid (processFragments s c) c).toolCallAccumulator := rfl
    rw [this, processWholeToolCalls_acc]
  rw [hacc] at hne
  have h1 := processFragments_inv s c h hne
  exact processWholeToolCalls_has fid _ c h1

theorem runStreamFrom_inv (fid : List Char) (cancelAt : Option Nat) :
    ∀ (chunks : List StreamChunk) (i : Nat) (s : StreamLoopState),
      (¬s.toolCallAccumulator.isEmpty → s.hasToolCalls = true) →
      ¬(runStreamFrom fid cancelAt i s chunks).toolCallAccumulator.isEmpty →
        (runStreamFrom fid cancelAt i s chunks).hasToolCalls = true := by
  intro chunks
  induction chunks with
  | nil => intro i s h; simpa [runStreamFrom] using h
  | cons c rest ih =>
    intro i s h
    by_cases hab : abortedAt cancelAt i = true
    · simpa [runStreamFrom, hab] using h
    · have hab2 : abortedAt cancelAt i = false := by
        revert hab
        cases abortedAt cancelAt i <;> simp
      simp only [runStreamFrom, hab2, Bool.false_eq_true, if_false]
      exact ih (i + 1) (streamStep fid s c) (streamStep_inv fid s c h)

/-- Claim C3: whole-call events (complete tool calls with a non-blank
name, arriving in chunks that carry no fragment field) are accepted
into the resolved-call set at stream end exactly when no fragment
accumulation happened in the pass.  First clause: in a pass whose
events carry no fragments, the resolved calls are, in order, precisely
the valid whole calls of the stream (compared by name and argument
value; ids may be freshly generated).  Second clause: whenever
fragment accumulation did happen, the stream-end set is rebuilt from
the accumulator alone - every buffered whole-call event is discarded
in favour of the fragment reconstruction, which is the source's
duplicate-avoidance rule. -/
theorem whole_call_acceptance :
    (∀ (fid : List Char) (parse : List Char → Option Json) (fidAt : Nat → List Char)
        (chunks : List StreamChunk),
      (∀ c ∈ chunks, c.tool_call_chunks = none) →
      (finalizeToolCalls parse fidAt (runStream fid none chunks)).map
          (fun b => (b.name, b.args))
        = (collectWholeCalls chunks).map (fun tc => (tc.name, wholeCallArgs tc))) ∧
    (∀ (fid : List Char) (parse : List Char → Option Json) (fidAt : Nat → List Char)
        (chunks : List StreamChunk),
      ¬(runStream fid none chunks).toolCallAccumulator.isEmpty →
      finalizeToolCalls parse fidAt (runStream fid none chunks)
        = resolveAccumulated parse fidAt
            (runStream fid none chunks).toolCallAccumulator) := by
  constructor
  · intro fid parse fidAt chunks h
    obtain ⟨ha, hb⟩ := runStream_no_frag fid chunks h 0 initialStreamState
    have hacc : (runStream fid none chunks).toolCallAccumulator = [] := by
      simpa [runStream, initialStreamState] using ha
    have hbuf : (runStream fid none chunks).toolCallsBuffer
        = (collectWholeCalls chunks).map (bufferedWholeCall fid) := by
      simpa [runStream, initialStreamState] using hb
    have hfin : finalizeToolCalls parse fidAt (runStream fid none chunks)
        = (runStream fid none chunks).toolCallsBuffer := by
      simp [finalizeToolCalls, hacc]
    rw [hfin, hbuf, List.map_map]
    rfl
  · intro fid parse fidAt chunks hne
    have hinit : ¬(initialStreamState.toolCallAccumulator).isEmpty →
        initialStreamState.hasToolCalls = true := by
      intro hx
      simp [initialStreamState] at hx
    have hhas : (runStream fid none chunks).hasToolCalls = true :=
      runStreamFrom_inv fid none chunks 0 initialStreamState hinit hne
    simp [finalizeToolCalls, hhas, hne]

/-- Witness for the whole-call acceptance claim: a one-event stream
carrying a single whole call resolves to exactly that call, and a
stream in which index 0 accumulated a fragment and a whole call also
arrived resolves from the accumulator alone, dropping the whole
call. -/
theorem whole_call_acceptance_wit :
    (∀ c ∈ c3aChunks, c.tool_call_chunks = none) ∧
    (finalizeToolCalls parseJson exFreshIdAt (runStream exFreshId none c3aChunks)).map
        (fun b => (b.name, b.args))
      = (collectWholeCalls c3aChunks).map (fun tc => (tc.name, wholeCallArgs tc)) ∧
    ¬(runStream exFreshId none c3bChunks).toolCallAccumulator.isEmpty ∧
    finalizeToolCalls parseJson exFreshIdAt (runStream exFreshId none c3bChunks)
      = resolveAccumulated parseJson exFreshIdAt
          (runStream exFreshId none c3bChunks).toolCallAccumulator ∧
    finalizeToolCalls parseJson exFreshIdAt (runStream exFreshId none c3bChunks)
      = [{ id := "call3".data, name := "ftool".data, args := Json.obj [] }] :=
  ⟨by decide,
    whole_call_acceptance.1 exFreshId parseJson exFreshIdAt c3aChunks (by decide),
    by decide,
    whole_call_acceptance.2 exFreshId parseJson exFreshIdAt c3bChunks (by decide),
    rfl⟩
